import Mathlib

/-! Verification of the library_manager catalog core.

A shallow embedding of `src/app/main.py`: the `Book` validators (title, author,
year), the `Library` record list, and the `LibraryManager` operations
(`_find_book_in_the_library`, `_add_book`, `_delete_book`, `_change_book_status`,
`_search_books_by`).  Strings are modelled as `List Char`; records as a structure
with the fields serialized by `Book.to_dict`; the mutable `books_data` list is
threaded explicitly; raised exceptions become `Except` errors.
-/

/-! ## Character classes

The Python regexes use the classes `[A-Za-zА-Яа-яЁё]`, `\d` and `\s` and a fixed
set of punctuation characters.  Ranges are expressed on code points:
`A-Z` = 0x41-0x5A, `a-z` = 0x61-0x7A, `А-Я` = 0x410-0x42F, `а-я` = 0x430-0x44F,
`Ё` = 0x401, `ё` = 0x451.
-/

/-- The letter class `[A-Za-zА-Яа-яЁё]` of the title and author regexes. -/
def isBookLetter (c : Char) : Bool :=
  decide ((0x41 ≤ c.toNat ∧ c.toNat ≤ 0x5A) ∨ (0x61 ≤ c.toNat ∧ c.toNat ≤ 0x7A) ∨
    (0x410 ≤ c.toNat ∧ c.toNat ≤ 0x44F) ∨ c.toNat = 0x401 ∨ c.toNat = 0x451)

/-- The digit class `\d` (ASCII digits; the inputs of interest are ASCII). -/
def isDigitChar (c : Char) : Bool :=
  decide (0x30 ≤ c.toNat ∧ c.toNat ≤ 0x39)

/-- Python's `\s` for `str` patterns: ASCII whitespace plus the Unicode
whitespace code points. -/
def isPySpace (c : Char) : Bool :=
  decide (c.toNat = 0x20 ∨ (0x9 ≤ c.toNat ∧ c.toNat ≤ 0xD) ∨
    (0x1C ≤ c.toNat ∧ c.toNat ≤ 0x1F) ∨ c.toNat = 0x85 ∨ c.toNat = 0xA0 ∨
    c.toNat = 0x1680 ∨ (0x2000 ≤ c.toNat ∧ c.toNat ≤ 0x200A) ∨ c.toNat = 0x2028 ∨
    c.toNat = 0x2029 ∨ c.toNat = 0x202F ∨ c.toNat = 0x205F ∨ c.toNat = 0x3000)

/-- The punctuation set `\.,;:!?()\'\"\-` of the title regex. -/
def isTitlePunct (c : Char) : Bool :=
  c = '.' || c = ',' || c = ';' || c = ':' || c = '!' || c = '?' ||
  c = '(' || c = ')' || c = '\'' || c = '"' || c = '-'

/-- The separator class `['\-\s]` of the author regex: apostrophe, hyphen or
whitespace. -/
def isAuthorSep (c : Char) : Bool :=
  c = '\'' || c = '-' || isPySpace c

/-! ## Python string methods

`str.strip`, `str.title` and `str.lower`, restricted to the alphabet that the
validated strings can contain (the letter class above, digits, whitespace and
punctuation); on it, the only cased characters are the letters of
`isBookLetter`. -/

/-- Case-map a single character to lower case (Latin and Cyrillic ranges,
including `Ё`). -/
def pyToLower (c : Char) : Char :=
  if 0x41 ≤ c.toNat ∧ c.toNat ≤ 0x5A then Char.ofNat (c.toNat + 0x20)
  else if 0x410 ≤ c.toNat ∧ c.toNat ≤ 0x42F then Char.ofNat (c.toNat + 0x20)
  else if c.toNat = 0x401 then Char.ofNat 0x451
  else c

/-- Case-map a single character to upper case (Latin and Cyrillic ranges,
including `ё`). -/
def pyToUpper (c : Char) : Char :=
  if 0x61 ≤ c.toNat ∧ c.toNat ≤ 0x7A then Char.ofNat (c.toNat - 0x20)
  else if 0x430 ≤ c.toNat ∧ c.toNat ≤ 0x44F then Char.ofNat (c.toNat - 0x20)
  else if c.toNat = 0x451 then Char.ofNat 0x401
  else c

/-- Python `str.strip()`: remove leading and trailing whitespace. -/
def pyStrip (l : List Char) : List Char :=
  List.rdropWhile isPySpace (l.dropWhile isPySpace)

/-- Python `str.lower()`: lower-case every character. -/
def pyLower (l : List Char) : List Char :=
  l.map pyToLower

/-- Worker for `str.title()`: the Boolean records whether the previous character
was cased; a cased character after an uncased one (or at the start) is
upper-cased, a cased character after a cased one is lower-cased, uncased
characters pass through. -/
def pyTitleAux : Bool → List Char → List Char
  | _, [] => []
  | prevCased, c :: rest =>
    (if isBookLetter c then (if prevCased then pyToLower c else pyToUpper c) else c)
      :: pyTitleAux (isBookLetter c) rest

/-- Python `str.title()`. -/
def pyTitle (l : List Char) : List Char :=
  pyTitleAux false l

/-! ## `int(...)` coercion

`_validate_year` calls `int(year)`.  On the string inputs the CLI supplies this
accepts optional surrounding whitespace, an optional sign and a nonempty digit
sequence with single underscores allowed between digits. -/

/-- Matcher for `(digit | _ digit)*`: the tail of an integer literal after its first
digit. -/
def intLiteralTail : List Char → Bool
  | [] => true
  | '_' :: c :: rest => isDigitChar c && intLiteralTail rest
  | c :: rest => isDigitChar c && intLiteralTail rest

/-- A nonempty digit sequence with single underscores between digits. -/
def isIntLiteral : List Char → Bool
  | [] => false
  | c :: rest => isDigitChar c && intLiteralTail rest

/-- Numeric value of a digit/underscore sequence (underscores skipped). -/
def digitsVal (l : List Char) : Nat :=
  (l.filter (fun c => c != '_')).foldl (fun n c => 10 * n + (c.toNat - 0x30)) 0

/-- Python `int(s)` on a string: `some` of the value, or `none` on `ValueError`. -/
def pyParseInt (l : List Char) : Option Int :=
  let s := pyStrip l
  match s with
  | '+' :: rest => if isIntLiteral rest then some (digitsVal rest) else none
  | '-' :: rest => if isIntLiteral rest then some (-(digitsVal rest : Int)) else none
  | _ => if isIntLiteral s then some (digitsVal s) else none

/-! ## The validator regexes

`re.search(regex, s)` with every alternative anchored `^...$`, followed by the
check `match.group(0) == s`, accepts exactly the full-string matches of the
regex.  Each alternative is translated into a deterministic matcher: in every
alternative a quantified sub-pattern is followed either by the end of the string
or by a character class disjoint from the sub-pattern's class, so the only
possible match of the sub-pattern is the maximal run (`takeWhile`), and no
backtracking can occur. -/

/-- Rest class of the title regex's first alternative:
`[A-Za-zА-Яа-яЁё0-9\s\.,;:!?()\'\"\-]`. -/
def isTitleRestA (c : Char) : Bool :=
  isBookLetter c || isDigitChar c || isPySpace c || isTitlePunct c

/-- Rest class of the title regex's second alternative:
`[A-Za-zА-Яа-яЁё\s\.,;:!?()\'\"\-]` (no digits). -/
def isTitleRestB (c : Char) : Bool :=
  isBookLetter c || isPySpace c || isTitlePunct c

/-- Full-string matcher for the title regex
`^[letters]{2}[restA]*$ | ^\d{1,4}[restB]+$ | ^\d{4}$`.
In the second alternative `restB` contains no digit, so `\d{1,4}` must consume
the whole initial digit run; hence the run's length must be between 1 and 4. -/
def validTitleB (t : List Char) : Bool :=
  (match t with
   | c1 :: c2 :: rest => isBookLetter c1 && isBookLetter c2 && rest.all isTitleRestA
   | _ => false)
  ||
  (let d := t.takeWhile isDigitChar
   let r := t.dropWhile isDigitChar
   decide (1 ≤ d.length) && decide (d.length ≤ 4) && !r.isEmpty && r.all isTitleRestB)
  ||
  (decide (t.length = 4) && t.all isDigitChar)

/-- Matcher for `(?:['\-\s][letters]+)+`: one or more groups, each a single
separator followed by a nonempty letter run.  Separators and letters are
disjoint classes, so each letter run is the maximal one.  The `Nat` argument is
recursion fuel; `l.length` steps always suffice because every group consumes at
least two characters. -/
def matchSepLetterGroups : Nat → List Char → Bool
  | 0, _ => false
  | _, [] => false
  | fuel + 1, c :: rest =>
    isAuthorSep c &&
      (let run := rest.takeWhile isBookLetter
       let rest2 := rest.dropWhile isBookLetter
       decide (1 ≤ run.length) && (rest2.isEmpty || matchSepLetterGroups fuel rest2))

/-- Full-string matcher for the author regex
`^[letters]{2,}(?:['\-\s][letters]+)+$ | ^[letters]{5,}$`.
In the first alternative the leading letter run is followed by a separator
(a non-letter), so `[letters]{2,}` must consume the whole maximal run. -/
def validAuthorB (a : List Char) : Bool :=
  (decide (2 ≤ (a.takeWhile isBookLetter).length) &&
     matchSepLetterGroups (a.length + 1) (a.dropWhile isBookLetter))
  || (decide (5 ≤ a.length) && a.all isBookLetter)

deriving instance DecidableEq for Except

/-- The `ValueError`s raised by the three validators, distinguished by their
message. -/
inductive ValidationError
  | invalidTitle
  | invalidAuthor
  | yearNotInteger
  | yearOutOfRange
deriving DecidableEq, Repr

/-- Embedding of `Book._validate_title`: on a regex match return `title.strip().title()`,
otherwise raise. -/
def validateTitle (title : List Char) : Except ValidationError (List Char) :=
  if validTitleB title then .ok (pyTitle (pyStrip title))
  else .error .invalidTitle

/-- Embedding of `Book._validate_author`: on a regex match return `author.strip().title()`,
otherwise raise. -/
def validateAuthor (author : List Char) : Except ValidationError (List Char) :=
  if validAuthorB author then .ok (pyTitle (pyStrip author))
  else .error .invalidAuthor

/-- Embedding of `Book._validate_year` on a string input, with the current calendar year
(`date.today().year`) passed as the parameter `today`: `int(year)` failing
raises one error, `year <= 0 or year > today` raises the other. -/
def validateYear (today : Int) (year : List Char) : Except ValidationError Int :=
  match pyParseInt year with
  | none => .error .yearNotInteger
  | some y => if y ≤ 0 ∨ today < y then .error .yearOutOfRange else .ok y

/-! ## Records and the catalog

`Book.to_dict` serializes `id, title, author, year, status`; the catalog
`Library.books_data` is the list of these dictionaries.  A record whose `year`
was produced by the program is an integer, which is why `year : Int` here, while
`status` stays an arbitrary string (the store may hold malformed statuses). -/

structure Record where
  id : Int
  title : List Char
  author : List Char
  year : Int
  status : List Char
deriving DecidableEq, Repr

/-- The status `"В наличии"` a new `Book` starts with. -/
def availableStatus : List Char := "В наличии".toList

/-- The status `"Выдана"`. -/
def checkedOutStatus : List Char := "Выдана".toList

/-- Default record used for the (never reached in-range) `List.getD` fallback
when indexing `books_data`. -/
def dfltRecord : Record := ⟨0, [], [], 0, []⟩

/-- Embedding of `Book.__init__`: assign `id = last_added_book_id + 1`, then validate title,
author and year in that order (the first failure propagates), and start with
status `"В наличии"`. -/
def mkBook (today : Int) (lastAddedBookId : Int) (title author year : List Char) :
    Except ValidationError Record :=
  match validateTitle title with
  | .error e => .error e
  | .ok t =>
    match validateAuthor author with
    | .error e => .error e
    | .ok a =>
      match validateYear today year with
      | .error e => .error e
      | .ok y => .ok ⟨lastAddedBookId + 1, t, a, y, availableStatus⟩

/-- The exceptions of `main.py` plus propagated `ValueError`s. -/
inductive LibError
  | validation (e : ValidationError)
  | alreadyInTheLibrary
  | notFoundInTheLibrary
  | incorrectSearchFields
deriving DecidableEq, Repr

/-! ## `LibraryManager` -/

/-- Loop body of `_find_book_in_the_library`: binary search with bounds
`low_bound`/`high_bound`, `mid = (low + high) // 2` (floor division, `Int.fdiv`).
On a hit it returns `mid` when `return_index` is set and the found id otherwise;
when the bounds cross it returns `-1`.  The `Nat` argument is recursion fuel
standing for the `while` loop; `(hi + 1 - lo).toNat` iterations always suffice
because the width `hi + 1 - lo` strictly decreases. -/
def findBookAux (books : List Record) (bookId : Int) (returnIndex : Bool) :
    Nat → Int → Int → Int
  | 0, _, _ => -1
  | fuel + 1, lo, hi =>
    if lo ≤ hi then
      let mid := (lo + hi).fdiv 2
      let targetBook := (books.getD mid.toNat dfltRecord).id
      if targetBook = bookId then (if returnIndex then mid else targetBook)
      else if targetBook > bookId then findBookAux books bookId returnIndex fuel lo (mid - 1)
      else findBookAux books bookId returnIndex fuel (mid + 1) hi
    else -1

/-- Embedding of `_find_book_in_the_library`: binary search over `books_data` between `0`
and `len - 1`.  Fuel `len + 1` bounds the iteration count. -/
def findBookInTheLibrary (books : List Record) (bookId : Int) (returnIndex : Bool) : Int :=
  findBookAux books bookId returnIndex (books.length + 1) 0 ((books.length : Int) - 1)

/-- The comparison `book.get(search_field) == search_value` of
`_search_books_by`.  The stored `year` is an integer while `search_value` is a
string; in Python equality between values of different types is `False`, so the
`year` arm never matches. -/
def recordFieldEq (b : Record) (field value : List Char) : Bool :=
  if field = "title".toList then b.title == value
  else if field = "author".toList then b.author == value
  else if field = "year".toList then false
  else false

/-- Embedding of `_search_books_by`, with the query already split into `search_field` and
`search_value` (`search_query.split(" = ")`; the call sites below never produce
a value containing `" = "`).  The field is lower-cased and stripped, the value
is title-cased and stripped; an unknown field raises; with results it returns
them (the printing path displays them); with no results it returns `[]` when
`return_book_obj` is set and raises otherwise. -/
def searchBooksBy (books : List Record) (searchField searchValue : List Char)
    (returnBookObj : Bool) : Except LibError (List Record) :=
  let f := pyStrip (pyLower searchField)
  let v := pyStrip (pyTitle searchValue)
  if f = "title".toList ∨ f = "author".toList ∨ f = "year".toList then
    let searchResults := books.filter (fun b => recordFieldEq b f v)
    if searchResults.isEmpty then
      if returnBookObj then .ok [] else .error .notFoundInTheLibrary
    else .ok searchResults
  else .error .incorrectSearchFields

/-- Value of `self.library.books_data[-1].get("id")` when the catalog is nonempty, `0`
otherwise. -/
def lastBookId (books : List Record) : Int :=
  match books.getLast? with
  | some b => b.id
  | none => 0

/-- Embedding of `_add_book`: build the new `Book` (validators may raise), query all records
whose author equals the new normalized author (the query string
`f"author = {new_book.author}"` splits back into the field `"author"` and the
author, which never contains `" = "`), raise `AlreadyInTheLibrary` if any of
them has the same `(title, year)`, otherwise append the new record. -/
def addBook (today : Int) (books : List Record) (title author year : List Char) :
    Except LibError (List Record) :=
  match mkBook today (lastBookId books) title author year with
  | .error e => .error (.validation e)
  | .ok newBook =>
    match searchBooksBy books "author".toList newBook.author true with
    | .error e => .error e
    | .ok sameAuthor =>
      if sameAuthor.any (fun b => b.title == newBook.title && b.year == newBook.year) then
        .error .alreadyInTheLibrary
      else .ok (books ++ [newBook])

/-- Embedding of `_delete_book`: binary search for the index, raise when absent, otherwise
`books_data.pop(book_index)`. -/
def deleteBook (books : List Record) (bookId : Int) : Except LibError (List Record) :=
  let bookIndex := findBookInTheLibrary books bookId true
  if bookIndex = -1 then .error .notFoundInTheLibrary
  else .ok (books.eraseIdx bookIndex.toNat)

/-- Embedding of `_change_book_status`: binary search for the index, raise when absent;
a record with status `"В наличии"` becomes `"Выдана"`, any other status becomes
`"В наличии"`. -/
def changeBookStatus (books : List Record) (bookId : Int) : Except LibError (List Record) :=
  let bookIndex := findBookInTheLibrary books bookId true
  if bookIndex = -1 then .error .notFoundInTheLibrary
  else
    let b := books.getD bookIndex.toNat dfltRecord
    if b.status = availableStatus then
      .ok (books.set bookIndex.toNat { b with status := checkedOutStatus })
    else
      .ok (books.set bookIndex.toNat { b with status := availableStatus })

/-- The catalog invariant: record ids strictly ascend along `books_data`. -/
def SortedByIds (books : List Record) : Prop :=
  books.Pairwise (fun x y => x.id < y.id)

instance (books : List Record) : Decidable (SortedByIds books) :=
  inferInstanceAs (Decidable (books.Pairwise _))

/-! ## Binary search correctness -/

/-- Strictly ascending ids, in `getD` form. -/
lemma sorted_getD_lt {books : List Record} (hs : SortedByIds books) {i j : Nat}
    (hij : i < j) (hj : j < books.length) :
    (books.getD i dfltRecord).id < (books.getD j dfltRecord).id := by
  rw [List.getD_eq_getElem _ _ (Nat.lt_trans hij hj), List.getD_eq_getElem _ _ hj]
  exact List.pairwise_iff_getElem.mp hs i j (Nat.lt_trans hij hj) hj hij

/-- Bounds of the Python floor-division midpoint. -/
lemma fdiv_mid_bounds {lo hi : Int} (h : lo ≤ hi) :
    lo ≤ (lo + hi).fdiv 2 ∧ (lo + hi).fdiv 2 ≤ hi := by
  rw [Int.fdiv_eq_ediv _ (by norm_num)]
  omega

/-- One unfolding of the loop body. -/
lemma findBookAux_succ (books : List Record) (bookId : Int) (returnIndex : Bool)
    (fuel : Nat) (lo hi : Int) :
    findBookAux books bookId returnIndex (fuel + 1) lo hi =
      if lo ≤ hi then
        (if (books.getD ((lo + hi).fdiv 2).toNat dfltRecord).id = bookId then
          (if returnIndex then (lo + hi).fdiv 2
           else (books.getD ((lo + hi).fdiv 2).toNat dfltRecord).id)
         else if (books.getD ((lo + hi).fdiv 2).toNat dfltRecord).id > bookId then
           findBookAux books bookId returnIndex fuel lo ((lo + hi).fdiv 2 - 1)
         else findBookAux books bookId returnIndex fuel ((lo + hi).fdiv 2 + 1) hi)
      else -1 := rfl

/-- When the target id sits at index `k` inside the live bounds of a sorted
catalog, the search loop returns `k`. -/
lemma findBookAux_eq_index {books : List Record} (hs : SortedByIds books) (bookId : Int) :
    ∀ (fuel : Nat) (lo hi : Int), 0 ≤ lo → hi < (books.length : Int) →
      (hi + 1 - lo).toNat ≤ fuel →
      ∀ k : Nat, k < books.length → (books.getD k dfltRecord).id = bookId →
        lo ≤ (k : Int) → (k : Int) ≤ hi →
        findBookAux books bookId true fuel lo hi = (k : Int) := by
  intro fuel
  induction fuel with
  | zero =>
    intro lo hi _ _ hfuel k _ _ hklo hkhi
    omega
  | succ fuel ih =>
    intro lo hi hlo hhi hfuel k hk hkid hklo hkhi
    have hlohi : lo ≤ hi := le_trans hklo hkhi
    rw [findBookAux_succ, if_pos hlohi]
    have hmid := fdiv_mid_bounds hlohi
    set mid := (lo + hi).fdiv 2 with hmiddef
    have hmid0 : 0 ≤ mid := le_trans hlo hmid.1
    have hmidlen : mid.toNat < books.length := by omega
    have hmidnat : (mid.toNat : Int) = mid := Int.toNat_of_nonneg hmid0
    by_cases heq : (books.getD mid.toNat dfltRecord).id = bookId
    · -- hit: the strict order forces mid = k
      have hmk : mid.toNat = k := by
        rcases Nat.lt_trichotomy mid.toNat k with h | h | h
        · exact absurd (sorted_getD_lt hs h hk) (by rw [heq, hkid]; omega)
        · exact h
        · exact absurd (sorted_getD_lt hs h hmidlen) (by rw [heq, hkid]; omega)
      rw [if_pos heq, if_pos rfl, ← hmk, hmidnat]
    · by_cases hgt : (books.getD mid.toNat dfltRecord).id > bookId
      · -- go left: k < mid
        have hklt : k < mid.toNat := by
          rcases Nat.lt_trichotomy k mid.toNat with h | h | h
          · exact h
          · exact absurd (h ▸ hkid) heq
          · exact absurd (sorted_getD_lt hs h hk) (by rw [hkid]; omega)
        rw [if_neg heq, if_pos hgt]
        exact ih lo (mid - 1) hlo (by omega) (by omega) k hk hkid hklo (by omega)
      · -- go right: mid < k
        have hklt : mid.toNat < k := by
          rcases Nat.lt_trichotomy mid.toNat k with h | h | h
          · exact h
          · exact absurd (h ▸ hkid) heq
          · exact absurd (sorted_getD_lt hs h hmidlen) (by rw [hkid]; omega)
        rw [if_neg heq, if_neg hgt]
        exact ih (mid + 1) hi (by omega) hhi (by omega) k hk hkid (by omega) hkhi

/-- When no index inside the live bounds carries the target id, the search
loop returns `-1` (no sortedness needed: the loop only probes inside the
bounds). -/
lemma findBookAux_eq_neg_one (books : List Record) (bookId : Int) (returnIndex : Bool) :
    ∀ (fuel : Nat) (lo hi : Int), 0 ≤ lo → hi < (books.length : Int) →
      (hi + 1 - lo).toNat ≤ fuel →
      (∀ k : Nat, lo ≤ (k : Int) → (k : Int) ≤ hi → k < books.length →
        (books.getD k dfltRecord).id ≠ bookId) →
      findBookAux books bookId returnIndex fuel lo hi = -1 := by
  intro fuel
  induction fuel with
  | zero => intro lo hi _ _ _ _; simp [findBookAux]
  | succ fuel ih =>
    intro lo hi hlo hhi hfuel habs
    by_cases hlohi : lo ≤ hi
    · rw [findBookAux_succ, if_pos hlohi]
      have hmid := fdiv_mid_bounds hlohi
      set mid := (lo + hi).fdiv 2 with hmiddef
      have hmid0 : 0 ≤ mid := le_trans hlo hmid.1
      have hmidlen : mid.toNat < books.length := by omega
      have hne : (books.getD mid.toNat dfltRecord).id ≠ bookId :=
        habs mid.toNat (by omega) (by omega) hmidlen
      rw [if_neg hne]
      by_cases hgt : (books.getD mid.toNat dfltRecord).id > bookId
      · rw [if_pos hgt]
        exact ih lo (mid - 1) hlo (by omega) (by omega)
          (fun j h1 h2 h3 => habs j h1 (by omega) h3)
      · rw [if_neg hgt]
        exact ih (mid + 1) hi (by omega) hhi (by omega)
          (fun j h1 h2 h3 => habs j (by omega) h2 h3)
    · rw [findBookAux_succ, if_neg hlohi]

/-- On a sorted catalog, `_find_book_in_the_library` with `return_index` set:
it returns the index of the record carrying the id when one exists. -/
lemma findBook_eq_index {books : List Record} (hs : SortedByIds books) {bookId : Int}
    {k : Nat} (hk : k < books.length) (hkid : (books.getD k dfltRecord).id = bookId) :
    findBookInTheLibrary books bookId true = (k : Int) := by
  apply findBookAux_eq_index hs bookId (books.length + 1) 0 ((books.length : Int) - 1)
    (by omega) (by omega) (by omega) k hk hkid (by omega) (by omega)

/-- In any mode, `_find_book_in_the_library` returns `-1` when no record
carries the id. -/
lemma findBook_eq_neg_one {books : List Record} {bookId : Int} (returnIndex : Bool)
    (habs : ∀ k : Nat, k < books.length → (books.getD k dfltRecord).id ≠ bookId) :
    findBookInTheLibrary books bookId returnIndex = -1 := by
  apply findBookAux_eq_neg_one books bookId returnIndex (books.length + 1) 0
    ((books.length : Int) - 1) (by omega) (by omega) (by omega)
  intro k _ h2 h3
  exact habs k h3

/-! ## Demo catalogs used by the witnesses -/

/-- A sorted three-record catalog with an id gap (ids 1, 2, 4). -/
def demoBooks : List Record :=
  [⟨1, "Aa".toList, "Homer".toList, 1990, availableStatus⟩,
   ⟨2, "Bb".toList, "Homer".toList, 1991, availableStatus⟩,
   ⟨4, "Cc".toList, "Homer".toList, 1992, checkedOutStatus⟩]

/-- A one-record catalog. -/
def demoOne : List Record :=
  [⟨1, "Aa".toList, "Homer".toList, 1990, availableStatus⟩]

/-- Claim C2: for every catalog in strictly ascending id order, the binary-search
lookup used by `delete` and `toggle_status` (`_find_book_in_the_library` with
`return_index=True`) returns the position of the record with the requested id
whenever such a record exists, and returns the sentinel `-1` whenever no record
has that id (catalogs of any size, including 0 and 1). -/
theorem binary_search_finds_present_and_rejects_absent
    (books : List Record) (hs : SortedByIds books) (bookId : Int) :
    (∀ k : Nat, k < books.length → (books.getD k dfltRecord).id = bookId →
       findBookInTheLibrary books bookId true = (k : Int))
    ∧ ((∀ k : Nat, k < books.length → (books.getD k dfltRecord).id ≠ bookId) →
       findBookInTheLibrary books bookId true = -1) :=
  ⟨fun _ hk hkid => findBook_eq_index hs hk hkid,
   fun habs => findBook_eq_neg_one true habs⟩

/-- Witness for C2 at catalogs of size 3, 0 and 1: id 2 is at position 1 and
id 3 is absent in `demoBooks`; every id is absent in `[]`; id 1 is at
position 0 in `demoOne`. -/
theorem binary_search_finds_present_and_rejects_absent_witness :
    findBookInTheLibrary demoBooks 2 true = 1 ∧
    findBookInTheLibrary demoBooks 3 true = -1 ∧
    findBookInTheLibrary ([] : List Record) 5 true = -1 ∧
    findBookInTheLibrary demoOne 1 true = 0 :=
  ⟨(binary_search_finds_present_and_rejects_absent demoBooks (by decide) 2).1 1
      (by decide) (by decide),
   (binary_search_finds_present_and_rejects_absent demoBooks (by decide) 3).2
      (by decide),
   (binary_search_finds_present_and_rejects_absent ([] : List Record) (by decide) 5).2
      (by decide),
   (binary_search_finds_present_and_rejects_absent demoOne (by decide) 1).1 0
      (by decide) (by decide)⟩

/-! ## Status toggle -/

/-- Putting back the record already at position `k` is a no-op. -/
lemma set_getD_self (l : List Record) (k : Nat) (_hk : k < l.length) :
    l.set k (l.getD k dfltRecord) = l := by
  apply List.ext_getElem (by simp)
  intro n h1 h2
  rw [List.getElem_set]
  split
  · next h => subst h; rw [List.getD_eq_getElem _ _ h2]
  · rfl

/-- Replacing position `k` by a record with the same id preserves the
ascending-ids invariant. -/
lemma sorted_set_same_id {books : List Record} (hs : SortedByIds books) {k : Nat}
    {b : Record} (hid : b.id = (books.getD k dfltRecord).id) :
    SortedByIds (books.set k b) := by
  by_cases hk : k < books.length
  · rw [List.getD_eq_getElem _ _ hk] at hid
    rw [SortedByIds, List.pairwise_iff_getElem] at *
    intro i j hi hj hij
    rw [List.length_set] at hi hj
    rw [List.getElem_set, List.getElem_set]
    by_cases hki : k = i
    · subst hki
      by_cases hkj : k = j
      · omega
      · rw [if_pos rfl, if_neg hkj, hid]
        exact hs k j hi hj hij
    · by_cases hkj : k = j
      · subst hkj
        rw [if_neg hki, if_pos rfl, hid]
        exact hs i k hi hj hij
      · rw [if_neg hki, if_neg hkj]
        exact hs i j hi hj hij
  · rw [List.set_eq_of_length_le (by omega)]
    exact hs

/-- The status written by one toggle: `"В наличии"` flips to `"Выдана"`,
anything else flips to `"В наличии"`. -/
def toggledStatus (s : List Char) : List Char :=
  if s = availableStatus then checkedOutStatus else availableStatus

/-- Unfolding `_change_book_status` on a sorted catalog whose position `k` holds the
requested id: it rewrites exactly position `k`, replacing the status by
`toggledStatus` of the old one. -/
lemma changeBookStatus_eq_set {books : List Record} (hs : SortedByIds books) (bookId : Int)
    {k : Nat} (hk : k < books.length) (hkid : (books.getD k dfltRecord).id = bookId) :
    changeBookStatus books bookId =
      .ok (books.set k { books.getD k dfltRecord with
                          status := toggledStatus (books.getD k dfltRecord).status }) := by
  have hfind : findBookInTheLibrary books bookId true = (k : Int) := findBook_eq_index hs hk hkid
  rw [changeBookStatus]
  rw [hfind]
  have hne : ((k : Int) = -1) = False := by simp
  simp only [hne, if_false, Int.toNat_natCast, toggledStatus]
  by_cases hst : (books.getD k dfltRecord).status = availableStatus
  · simp only [if_pos hst]
  · simp only [if_neg hst]

/-- Claim C3: on a sorted catalog, for a present id whose record's status is
one of the two states `"В наличии"` or `"Выдана"`, one `toggle_status` rewrites
exactly that record with a different status, and applying `toggle_status` twice
returns the catalog to its original state (the toggle is an involution on the
two-state domain). -/
theorem toggle_status_involution
    (books : List Record) (hs : SortedByIds books) (bookId : Int) (k : Nat)
    (hk : k < books.length) (hkid : (books.getD k dfltRecord).id = bookId)
    (hst : (books.getD k dfltRecord).status = availableStatus ∨
           (books.getD k dfltRecord).status = checkedOutStatus) :
    changeBookStatus books bookId =
      .ok (books.set k { books.getD k dfltRecord with
                          status := toggledStatus (books.getD k dfltRecord).status }) ∧
    toggledStatus (books.getD k dfltRecord).status ≠ (books.getD k dfltRecord).status ∧
    changeBookStatus
        (books.set k { books.getD k dfltRecord with
                        status := toggledStatus (books.getD k dfltRecord).status }) bookId =
      .ok books := by
  have ht2 : toggledStatus (toggledStatus (books.getD k dfltRecord).status) =
      (books.getD k dfltRecord).status := by
    rcases hst with h | h <;> rw [h] <;> decide
  refine ⟨changeBookStatus_eq_set hs bookId hk hkid, ?_, ?_⟩
  · rcases hst with h | h <;> rw [h] <;> decide
  · have hk1 : k < (books.set k { books.getD k dfltRecord with
        status := toggledStatus (books.getD k dfltRecord).status }).length := by
      rw [List.length_set]; exact hk
    have hgetD : (books.set k { books.getD k dfltRecord with
          status := toggledStatus (books.getD k dfltRecord).status }).getD k dfltRecord =
        { books.getD k dfltRecord with
            status := toggledStatus (books.getD k dfltRecord).status } := by
      rw [List.getD_eq_getElem _ _ hk1, List.getElem_set_self]
    have hs1 : SortedByIds (books.set k { books.getD k dfltRecord with
        status := toggledStatus (books.getD k dfltRecord).status }) :=
      sorted_set_same_id hs rfl
    have h2 := changeBookStatus_eq_set hs1 bookId hk1 (by rw [hgetD]; exact hkid)
    rw [hgetD] at h2
    rw [List.set_set] at h2
    have hY : ({ { books.getD k dfltRecord with
          status := toggledStatus (books.getD k dfltRecord).status } with
          status := toggledStatus ({ books.getD k dfltRecord with
            status := toggledStatus (books.getD k dfltRecord).status } : Record).status } :
        Record) = books.getD k dfltRecord := by
      show ({ books.getD k dfltRecord with
          status := toggledStatus (toggledStatus (books.getD k dfltRecord).status) } :
        Record) = books.getD k dfltRecord
      rw [ht2]
    rw [hY] at h2
    rw [set_getD_self books k hk] at h2
    exact h2

def demoOneCheckedOut : List Record :=
  [⟨1, "Aa".toList, "Homer".toList, 1990, checkedOutStatus⟩]

theorem toggle_status_involution_witness :
    changeBookStatus demoOne 1 = .ok demoOneCheckedOut ∧
    changeBookStatus demoOneCheckedOut 1 = .ok demoOne := by
  have h := toggle_status_involution demoOne (by decide) 1 0 (by decide) (by decide)
    (Or.inl (by decide))
  have e : demoOne.set 0 { demoOne.getD 0 dfltRecord with
      status := toggledStatus (demoOne.getD 0 dfltRecord).status } = demoOneCheckedOut := by
    decide
  refine ⟨?_, ?_⟩
  · rw [h.1, e]
  · rw [← e]
    exact h.2.2

/-- Claim C10: for every record found by `toggle_status`, the operation maps
status `"В наличии"` to `"Выдана"` and every other status string — including
malformed ones loaded from the store — to `"В наличии"`; hence after one toggle
the status always lies in the two-label set. -/
theorem toggle_status_maps_into_two_labels
    (books : List Record) (hs : SortedByIds books) (bookId : Int) (k : Nat)
    (hk : k < books.length) (hkid : (books.getD k dfltRecord).id = bookId) :
    changeBookStatus books bookId =
      .ok (books.set k { books.getD k dfltRecord with
                          status := toggledStatus (books.getD k dfltRecord).status }) ∧
    toggledStatus (books.getD k dfltRecord).status =
      (if (books.getD k dfltRecord).status = availableStatus then checkedOutStatus
       else availableStatus) ∧
    (toggledStatus (books.getD k dfltRecord).status = availableStatus ∨
     toggledStatus (books.getD k dfltRecord).status = checkedOutStatus) := by
  refine ⟨changeBookStatus_eq_set hs bookId hk hkid, rfl, ?_⟩
  rw [toggledStatus]
  by_cases hst : (books.getD k dfltRecord).status = availableStatus
  · rw [if_pos hst]
    exact Or.inr rfl
  · rw [if_neg hst]
    exact Or.inl rfl

def demoMalformed : List Record :=
  [⟨1, "Aa".toList, "Homer".toList, 1990, "???".toList⟩]

theorem toggle_status_maps_into_two_labels_witness :
    changeBookStatus demoMalformed 1 = .ok demoOne := by
  have h := (toggle_status_maps_into_two_labels demoMalformed (by decide) 1 0
    (by decide) (by decide)).1
  rw [h]
  decide

/-! ## Deletion -/

/-- On a sorted catalog, `_delete_book` of a present id pops exactly the
record at its position. -/
lemma deleteBook_eq_eraseIdx {books : List Record} (hs : SortedByIds books) (bookId : Int)
    {k : Nat} (hk : k < books.length) (hkid : (books.getD k dfltRecord).id = bookId) :
    deleteBook books bookId = .ok (books.eraseIdx k) := by
  have hfind := findBook_eq_index hs hk hkid
  rw [deleteBook, hfind]
  have hne : ((k : Int) = -1) = False := by simp
  simp only [hne, if_false, Int.toNat_natCast]

/-- Claim C5: on a catalog in strictly ascending id order containing a record
with the given id, `delete` removes exactly that one record: the result is the
surrounding records in their original order, which equals filtering the one id
out (every other record keeps its id, its fields and its position). -/
theorem delete_removes_exactly_one
    (books : List Record) (hs : SortedByIds books) (bookId : Int) (k : Nat)
    (hk : k < books.length) (hkid : (books.getD k dfltRecord).id = bookId) :
    deleteBook books bookId = .ok (books.take k ++ books.drop (k + 1)) ∧
    books.take k ++ books.drop (k + 1) = books.filter (fun b => b.id != bookId) := by
  have hdecomp : books = books.take k ++ books.getD k dfltRecord :: books.drop (k + 1) := by
    rw [List.getD_eq_getElem _ _ hk]
    conv_lhs => rw [← List.take_append_drop k books]
    rw [List.drop_eq_getElem_cons hk]
  constructor
  · rw [deleteBook_eq_eraseIdx hs bookId hk hkid, List.eraseIdx_eq_take_drop_succ]
  · have hp : SortedByIds (books.take k ++ books.getD k dfltRecord :: books.drop (k + 1)) := by
      rw [← hdecomp]; exact hs
    rw [SortedByIds, List.pairwise_append] at hp
    obtain ⟨hp1, hp2, hp3⟩ := hp
    rw [List.pairwise_cons] at hp2
    obtain ⟨hhead, _⟩ := hp2
    have htake : ∀ a ∈ books.take k, (a.id != bookId) = true := by
      intro a ha
      have := hp3 a ha (books.getD k dfltRecord) (List.mem_cons_self _ _)
      rw [hkid] at this
      simp only [bne_iff_ne, ne_eq]
      omega
    have hdrop : ∀ b ∈ books.drop (k + 1), (b.id != bookId) = true := by
      intro b hb
      have := hhead b hb
      rw [hkid] at this
      simp only [bne_iff_ne, ne_eq]
      omega
    conv_rhs => rw [hdecomp]
    rw [List.filter_append, List.filter_cons]
    have hself : ((books.getD k dfltRecord).id != bookId) = false := by
      rw [hkid]
      simp
    rw [hself]
    simp only [Bool.false_eq_true, if_false]
    rw [List.filter_eq_self.mpr htake, List.filter_eq_self.mpr hdrop]

def demoDeleted : List Record :=
  [⟨1, "Aa".toList, "Homer".toList, 1990, availableStatus⟩,
   ⟨4, "Cc".toList, "Homer".toList, 1992, checkedOutStatus⟩]

theorem delete_removes_exactly_one_witness :
    deleteBook demoBooks 2 = .ok demoDeleted ∧
    demoDeleted = demoBooks.filter (fun b => b.id != 2) := by
  have h := delete_removes_exactly_one demoBooks (by decide) 2 1 (by decide) (by decide)
  have e : demoBooks.take 1 ++ demoBooks.drop 2 = demoDeleted := by decide
  refine ⟨?_, ?_⟩
  · rw [h.1, e]
  · rw [← e, h.2]

/-! ## Identifier invariants -/

/-- Shape of a successfully constructed `Book`. -/
lemma mkBook_ok_shape {today lastId : Int} {t a y : List Char} {b : Record}
    (h : mkBook today lastId t a y = .ok b) :
    b.id = lastId + 1 ∧ b.status = availableStatus := by
  rw [mkBook] at h
  split at h
  · exact absurd h (by simp)
  split at h
  · exact absurd h (by simp)
  split at h
  · exact absurd h (by simp)
  cases h
  exact ⟨rfl, rfl⟩

/-- Shape of a successful `_add_book`: the new record is appended and its id is
the last id plus one. -/
lemma addBook_ok_shape {today : Int} {books books' : List Record} {t a y : List Char}
    (h : addBook today books t a y = .ok books') :
    ∃ nb : Record, books' = books ++ [nb] ∧ nb.id = lastBookId books + 1 ∧
      nb.status = availableStatus := by
  rw [addBook] at h
  split at h
  · exact absurd h (by simp)
  next nb hmk =>
  split at h
  · exact absurd h (by simp)
  next same hsr =>
  split at h
  · exact absurd h (by simp)
  · cases h
    obtain ⟨hid, hstat⟩ := mkBook_ok_shape hmk
    exact ⟨nb, rfl, hid, hstat⟩

/-- In a sorted catalog every id is at most the last record's id. -/
lemma sorted_id_le_last {books : List Record} (hs : SortedByIds books) :
    ∀ b ∈ books, b.id ≤ lastBookId books := by
  intro b hb
  have hlen : books ≠ [] := List.ne_nil_of_mem hb
  have hne : books.getLast? = some (books.getLast hlen) := List.getLast?_eq_getLast books hlen
  have hlid : lastBookId books = (books.getLast hlen).id := by rw [lastBookId, hne]
  obtain ⟨i, hi, hib⟩ := List.mem_iff_getElem.mp hb
  rw [hlid, List.getLast_eq_getElem]
  rcases Nat.lt_trichotomy i (books.length - 1) with hlt | heq | hgt
  · have h3 := List.pairwise_iff_getElem.mp hs i (books.length - 1) hi (by omega) hlt
    rw [hib] at h3
    omega
  · subst heq
    exact le_of_eq (congrArg Record.id hib).symm
  · omega

/-- Claim C6: strictly ascending ids are an invariant of every Manager
operation — `add` appends a record with id `last_id + 1` (so `1` on an empty
catalog) exceeding every existing id, keeping the order and uniqueness of ids;
`delete` removes one element without reordering; `toggle_status` changes no id
and no position. -/
theorem manager_preserves_ascending_ids
    (books : List Record) (hs : SortedByIds books) (today : Int)
    (t a y : List Char) (bookId : Int) :
    (∀ books', addBook today books t a y = .ok books' →
       ∃ nb : Record, books' = books ++ [nb] ∧
         nb.id = lastBookId books + 1 ∧
         (books = [] → nb.id = 1) ∧
         (∀ b ∈ books, b.id < nb.id) ∧
         SortedByIds books' ∧
         books'.Pairwise (fun x y => x.id ≠ y.id)) ∧
    (∀ books', deleteBook books bookId = .ok books' → SortedByIds books') ∧
    (∀ books', changeBookStatus books bookId = .ok books' → SortedByIds books') := by
  refine ⟨?_, ?_, ?_⟩
  · intro books' h
    obtain ⟨nb, hb', hid, hstat⟩ := addBook_ok_shape h
    have hlt : ∀ b ∈ books, b.id < nb.id := by
      intro b hb
      have := sorted_id_le_last hs b hb
      omega
    have hsorted : SortedByIds books' := by
      rw [hb', SortedByIds, List.pairwise_append]
      refine ⟨hs, List.pairwise_singleton _ _, ?_⟩
      intro x hx b hb
      rw [List.mem_singleton] at hb
      subst hb
      exact hlt x hx
    refine ⟨nb, hb', hid, ?_, hlt, hsorted, ?_⟩
    · intro hnil
      subst hnil
      rw [hid]
      rfl
    · exact hsorted.imp (fun hxy => ne_of_lt hxy)
  · intro books' h
    rw [deleteBook] at h
    split at h
    · exact absurd h (by simp)
    · cases h
      exact List.Pairwise.sublist (List.eraseIdx_sublist books _) hs
  · intro books' h
    rw [changeBookStatus] at h
    split at h
    · exact absurd h (by simp)
    · simp only at h
      split at h <;> cases h <;> exact sorted_set_same_id hs rfl

def demoAdded : List Record :=
  demoBooks ++ [⟨5, "Dd".toList, "Homer".toList, 1993, availableStatus⟩]

def demoToggled : List Record :=
  [⟨1, "Aa".toList, "Homer".toList, 1990, availableStatus⟩,
   ⟨2, "Bb".toList, "Homer".toList, 1991, checkedOutStatus⟩,
   ⟨4, "Cc".toList, "Homer".toList, 1992, checkedOutStatus⟩]

theorem manager_preserves_ascending_ids_witness :
    SortedByIds demoAdded ∧ SortedByIds demoDeleted ∧ SortedByIds demoToggled := by
  have h := manager_preserves_ascending_ids demoBooks (by decide) 2026
    "Dd".toList "Homer".toList "1993".toList 2
  refine ⟨?_, h.2.1 demoDeleted (by decide), h.2.2 demoToggled (by decide)⟩
  obtain ⟨nb, he, h1, h2, h3, hsorted, h4⟩ := h.1 demoAdded (by decide)
  exact hsorted

/-! ## Title and year validator claims -/

/-- Claim C8: the title validator accepts the exactly-four-digit string
`"1984"`, rejects the purely numeric three-digit string `"111"`, and rejects
the single-letter string `"A"`. -/
theorem title_rule_boundary_examples :
    validateTitle "1984".toList = .ok "1984".toList ∧
    validateTitle "111".toList = .error .invalidTitle ∧
    validateTitle "A".toList = .error .invalidTitle := by
  decide

/-- Claim C9: the year validator accepts an input exactly when it coerces to
an integer `v` with `0 < v ≤ today` (the current calendar year); year 0,
negative years and years beyond `today` fail with the out-of-range error, and
input that does not coerce to an integer fails with a distinct error. -/
theorem year_rule_range_and_errors (today : Int) (y : List Char) :
    (∀ v : Int, validateYear today y = .ok v ↔
        (pyParseInt y = some v ∧ 0 < v ∧ v ≤ today)) ∧
    (pyParseInt y = none → validateYear today y = .error .yearNotInteger) ∧
    (∀ v : Int, pyParseInt y = some v → (v ≤ 0 ∨ today < v) →
        validateYear today y = .error .yearOutOfRange) := by
  refine ⟨?_, ?_, ?_⟩
  · intro v
    constructor
    · intro h
      rw [validateYear] at h
      cases hp : pyParseInt y <;> rw [hp] at h <;> dsimp only at h
      · exact absurd h (by simp)
      next w =>
        by_cases hc : w ≤ 0 ∨ today < w
        · rw [if_pos hc] at h
          exact absurd h (by simp)
        · rw [if_neg hc] at h
          cases h
          exact ⟨rfl, by omega⟩
    · rintro ⟨hp, h1, h2⟩
      rw [validateYear, hp]
      dsimp only
      rw [if_neg (by omega)]
  · intro hp
    rw [validateYear, hp]
  · intro v hp hc
    rw [validateYear, hp]
    dsimp only
    rw [if_pos hc]

theorem year_rule_range_and_errors_witness :
    validateYear 2026 "2026".toList = .ok 2026 ∧
    validateYear 2026 "0".toList = .error .yearOutOfRange ∧
    validateYear 2026 "-44".toList = .error .yearOutOfRange ∧
    validateYear 2026 "2027".toList = .error .yearOutOfRange ∧
    validateYear 2026 "abc".toList = .error .yearNotInteger :=
  ⟨((year_rule_range_and_errors 2026 "2026".toList).1 2026).mpr
      ⟨by decide, by decide, by decide⟩,
   (year_rule_range_and_errors 2026 "0".toList).2.2 0 (by decide) (by decide),
   (year_rule_range_and_errors 2026 "-44".toList).2.2 (-44) (by decide) (by decide),
   (year_rule_range_and_errors 2026 "2027".toList).2.2 2027 (by decide) (by decide),
   (year_rule_range_and_errors 2026 "abc".toList).2.1 (by decide)⟩

/-! ## Add-then-search (the `year` search can never match) -/

/-- The record created by `add("1984", "Homer", "1984")` on an empty catalog. -/
def book1984 : Record := ⟨1, "1984".toList, "Homer".toList, 1984, availableStatus⟩

/-- Claim C1 (code bug): after `add("1984", "Homer", "1984")` the title and
author searches return the added record with the normalized field values, but
the year search raises `NotFoundInTheLibrary`: `_search_books_by` compares the
stored integer year with the title-cased search string, and in Python that
comparison is always `False`. -/
theorem add_then_search_by_year_finds_nothing :
    addBook 2026 [] "1984".toList "Homer".toList "1984".toList = .ok [book1984] ∧
    searchBooksBy [book1984] "title".toList "1984".toList false = .ok [book1984] ∧
    searchBooksBy [book1984] "author".toList "Homer".toList false = .ok [book1984] ∧
    searchBooksBy [book1984] "year".toList "1984".toList false =
      .error .notFoundInTheLibrary := by
  decide

/-! ## The author grammar

Characterization of the two regex alternatives as languages, used to settle the
claim about the author rule and to reason about normalized authors. -/

/-- Splitting `takeWhile`/`dropWhile` across a block of satisfying elements followed by a
non-satisfying one. -/
lemma takeWhile_all_append {p : Char → Bool} {g : List Char} (hg : ∀ c ∈ g, p c = true)
    {s : Char} (hs : p s = false) (r : List Char) :
    (g ++ s :: r).takeWhile p = g ∧ (g ++ s :: r).dropWhile p = s :: r := by
  induction g with
  | nil => simp [List.takeWhile_cons, List.dropWhile_cons, hs]
  | cons c g ih =>
    have hc : p c = true := hg c (List.mem_cons_self _ _)
    have ih2 := ih (fun x hx => hg x (List.mem_cons_of_mem _ hx))
    simp [List.takeWhile_cons, List.dropWhile_cons, hc, ih2.1, ih2.2]

/-- Evaluating `takeWhile`/`dropWhile` on a list of satisfying elements. -/
lemma takeWhile_all {p : Char → Bool} {l : List Char} (h : ∀ c ∈ l, p c = true) :
    l.takeWhile p = l ∧ l.dropWhile p = [] := by
  induction l with
  | nil => simp
  | cons c l ih =>
    have hc := h c (List.mem_cons_self _ _)
    have ih2 := ih (fun x hx => h x (List.mem_cons_of_mem _ hx))
    simp [List.takeWhile_cons, List.dropWhile_cons, hc, ih2.1, ih2.2]

/-- Generic matcher for `(?:SEP L{min,})+` with `SEP` a class disjoint from the
letters: one or more groups, each one separator and a letter run of at least
`minLen` letters. -/
def sepGroupsMatch (sep : Char → Bool) (minLen : Nat) : Nat → List Char → Bool
  | 0, _ => false
  | _, [] => false
  | fuel + 1, c :: rest =>
    sep c &&
      (let run := rest.takeWhile isBookLetter
       let rest2 := rest.dropWhile isBookLetter
       decide (minLen ≤ run.length) && (rest2.isEmpty || sepGroupsMatch sep minLen fuel rest2))

lemma sepGroupsMatch_nil (sep : Char → Bool) (minLen fuel : Nat) :
    sepGroupsMatch sep minLen fuel [] = false := by
  cases fuel <;> rfl

lemma sepGroupsMatch_cons (sep : Char → Bool) (minLen fuel : Nat) (c : Char)
    (rest : List Char) :
    sepGroupsMatch sep minLen (fuel + 1) (c :: rest) =
      (sep c && (decide (minLen ≤ (rest.takeWhile isBookLetter).length) &&
        ((rest.dropWhile isBookLetter).isEmpty ||
          sepGroupsMatch sep minLen fuel (rest.dropWhile isBookLetter)))) := rfl

/-- The author regex's group matcher is the generic one at `SEP = ['\-\s]`,
`min = 1`. -/
lemma matchSepLetterGroups_eq_generic : ∀ (fuel : Nat) (l : List Char),
    matchSepLetterGroups fuel l = sepGroupsMatch isAuthorSep 1 fuel l := by
  intro fuel
  induction fuel with
  | zero => intro l; cases l <;> rfl
  | succ fuel ih =>
    intro l
    cases l with
    | nil => rfl
    | cons c rest =>
      rw [matchSepLetterGroups, sepGroupsMatch_cons]
      simp only [ih]

/-- Language of `(?:SEP L{min,})+`: a concatenation of one or more groups, each
a separator and a letter run of length at least `minLen`. -/
def SepGroupsLang (sep : Char → Bool) (minLen : Nat) (l : List Char) : Prop :=
  ∃ gs : List (Char × List Char), gs ≠ [] ∧
    l = (gs.map (fun p => p.1 :: p.2)).flatten ∧
    ∀ p ∈ gs, sep p.1 = true ∧ minLen ≤ p.2.length ∧ ∀ c ∈ p.2, isBookLetter c = true

/-- The generic matcher accepts exactly `SepGroupsLang` (given enough fuel and
a separator class disjoint from the letters). -/
lemma sepGroupsMatch_iff (sep : Char → Bool) (minLen : Nat)
    (hdisj : ∀ c, sep c = true → isBookLetter c = false) :
    ∀ (fuel : Nat) (l : List Char), l.length < fuel →
      (sepGroupsMatch sep minLen fuel l = true ↔ SepGroupsLang sep minLen l) := by
  intro fuel
  induction fuel with
  | zero => intro l h; omega
  | succ fuel ih =>
    intro l hlen
    cases l with
    | nil =>
      rw [sepGroupsMatch_nil]
      constructor
      · intro h; cases h
      · rintro ⟨gs, hne, hflat, _⟩
        cases gs with
        | nil => exact absurd rfl hne
        | cons p ps => simp at hflat
    | cons c rest =>
      rw [sepGroupsMatch_cons]
      simp only [Bool.and_eq_true, Bool.or_eq_true, decide_eq_true_eq, List.isEmpty_iff]
      constructor
      · rintro ⟨hsep, hrun, hrest⟩
        have hrests : List.takeWhile isBookLetter rest ++ List.dropWhile isBookLetter rest
            = rest := List.takeWhile_append_dropWhile _ _
        have hrunlet : ∀ x ∈ rest.takeWhile isBookLetter, isBookLetter x = true :=
          fun x hx => List.mem_takeWhile_imp hx
        rcases hrest with hempty | hmatch
        · have hre : rest.takeWhile isBookLetter = rest := by
            rw [hempty, List.append_nil] at hrests
            exact hrests
          refine ⟨[(c, rest.takeWhile isBookLetter)], by simp, ?_, ?_⟩
          · simp only [List.map_cons, List.map_nil, List.flatten_cons, List.flatten_nil,
              List.append_nil]
            rw [hre]
          · intro p hp
            rw [List.mem_singleton] at hp
            subst hp
            exact ⟨hsep, hrun, hrunlet⟩
        · have hr2len : (rest.dropWhile isBookLetter).length < fuel := by
            have h1 : (rest.dropWhile isBookLetter).length ≤ rest.length :=
              (List.dropWhile_sublist _).length_le
            simp only [List.length_cons] at hlen
            omega
          obtain ⟨gs, hne, hflat, hprops⟩ := (ih _ hr2len).mp hmatch
          refine ⟨(c, rest.takeWhile isBookLetter) :: gs, by simp, ?_, ?_⟩
          · simp only [List.map_cons, List.flatten_cons, List.cons_append, List.cons.injEq,
              true_and]
            rw [← hflat]
            exact hrests.symm
          · intro p hp
            rcases List.mem_cons.mp hp with hp | hp
            · subst hp
              exact ⟨hsep, hrun, hrunlet⟩
            · exact hprops p hp
      · rintro ⟨gs, hne, hflat, hprops⟩
        cases gs with
        | nil => exact absurd rfl hne
        | cons p ps =>
          obtain ⟨s, g⟩ := p
          obtain ⟨hsep, hglen, hglet⟩ := hprops (s, g) (List.mem_cons_self _ _)
          simp only [List.map_cons, List.flatten_cons, List.cons_append,
            List.cons.injEq] at hflat
          obtain ⟨hcs, hrest⟩ := hflat
          subst hcs
          refine ⟨hsep, ?_, ?_⟩
          · cases ps with
            | nil =>
              simp only [List.map_nil, List.flatten_nil, List.append_nil] at hrest
              subst hrest
              rw [(takeWhile_all hglet).1]
              exact hglen
            | cons q qs =>
              obtain ⟨hqsep, _, _⟩ :=
                hprops q (List.mem_cons_of_mem _ (List.mem_cons_self _ _))
              simp only [List.map_cons, List.flatten_cons, List.cons_append] at hrest
              rw [hrest, (takeWhile_all_append hglet (hdisj _ hqsep) _).1]
              exact hglen
          · cases ps with
            | nil =>
              simp only [List.map_nil, List.flatten_nil, List.append_nil] at hrest
              subst hrest
              rw [(takeWhile_all hglet).2]
              exact Or.inl rfl
            | cons q qs =>
              obtain ⟨hqsep, _, _⟩ :=
                hprops q (List.mem_cons_of_mem _ (List.mem_cons_self _ _))
              simp only [List.map_cons, List.flatten_cons, List.cons_append] at hrest
              rw [hrest, (takeWhile_all_append hglet (hdisj _ hqsep) _).2]
              refine Or.inr ?_
              have hlen2 : (q.1 :: (q.2 ++ (qs.map (fun p => p.1 :: p.2)).flatten)).length
                  < fuel := by
                have hr : rest.length < fuel := by
                  simp only [List.length_cons] at hlen
                  omega
                rw [hrest] at hr
                simp only [List.length_append, List.length_cons] at hr ⊢
                omega
              refine (ih _ hlen2).mpr ?_
              refine ⟨q :: qs, by simp, ?_, ?_⟩
              · simp only [List.map_cons, List.flatten_cons, List.cons_append]
              · intro r hr
                exact hprops r (List.mem_cons_of_mem _ hr)

/-- Separators of the author regex are not letters. -/
lemma authorSep_not_letter : ∀ c : Char, isAuthorSep c = true → isBookLetter c = false := by
  intro c h
  rw [isAuthorSep] at h
  simp only [Bool.or_eq_true, decide_eq_true_eq] at h
  rcases h with (h | h) | h
  · subst h; decide
  · subst h; decide
  · rw [isPySpace, decide_eq_true_eq] at h
    rw [isBookLetter, decide_eq_false_iff_not]
    omega

/-- Hyphen and space are not letters. -/
lemma claimSep_not_letter : ∀ c : Char, (c = '-' || c = ' ') = true → isBookLetter c = false := by
  intro c h
  simp only [Bool.or_eq_true, decide_eq_true_eq] at h
  rcases h with h | h <;> subst h <;> decide

/-- Shape of the first alternative: a letter run of length at least 2 followed
by a separator-group tail. -/
lemma authorShape_iff (sep : Char → Bool) (minLen : Nat)
    (hdisj : ∀ c, sep c = true → isBookLetter c = false) (a : List Char) :
    (decide (2 ≤ (a.takeWhile isBookLetter).length) &&
       sepGroupsMatch sep minLen (a.length + 1) (a.dropWhile isBookLetter)) = true ↔
    (∃ g0 rest, a = g0 ++ rest ∧ 2 ≤ g0.length ∧ (∀ c ∈ g0, isBookLetter c = true) ∧
       SepGroupsLang sep minLen rest) := by
  constructor
  · intro h
    rw [Bool.and_eq_true, decide_eq_true_eq] at h
    obtain ⟨h2, hm⟩ := h
    have hlen : (a.dropWhile isBookLetter).length < a.length + 1 := by
      have := (List.dropWhile_sublist (l := a) isBookLetter).length_le
      omega
    exact ⟨a.takeWhile isBookLetter, a.dropWhile isBookLetter,
      (List.takeWhile_append_dropWhile _ _).symm, h2,
      fun x hx => List.mem_takeWhile_imp hx,
      (sepGroupsMatch_iff sep minLen hdisj _ _ hlen).mp hm⟩
  · rintro ⟨g0, rest, ha, h2, hg0, hlang⟩
    obtain ⟨gs, hne, hflat, hprops⟩ := hlang
    cases gs with
    | nil => exact absurd rfl hne
    | cons p ps =>
      have hpsep := (hprops p (List.mem_cons_self _ _)).1
      have hsnl : isBookLetter p.1 = false := hdisj _ hpsep
      have hrest : rest = p.1 :: (p.2 ++ (ps.map (fun r => r.1 :: r.2)).flatten) := by
        rw [hflat]
        simp [List.map_cons, List.flatten_cons]
      have htw := takeWhile_all_append hg0 hsnl (p.2 ++ (ps.map (fun r => r.1 :: r.2)).flatten)
      rw [Bool.and_eq_true, decide_eq_true_eq]
      constructor
      · rw [ha, hrest, htw.1]
        exact h2
      · rw [ha, hrest, htw.2]
        have hfuel : (p.1 :: (p.2 ++ (ps.map (fun r => r.1 :: r.2)).flatten)).length <
            (g0 ++ p.1 :: (p.2 ++ (ps.map (fun r => r.1 :: r.2)).flatten)).length + 1 := by
          simp only [List.length_append, List.length_cons]
          omega
        refine (sepGroupsMatch_iff sep minLen hdisj _ _ hfuel).mpr ?_
        refine ⟨p :: ps, hne, ?_, hprops⟩
        simp [List.map_cons, List.flatten_cons]

/-- Language of the author regex: either a letter run of 2+ letters followed by
one or more (separator, 1+ letters) groups (separators: apostrophe, hyphen or
whitespace), or a bare run of 5+ letters. -/
def AuthorRegexLang (a : List Char) : Prop :=
  (∃ g0 rest, a = g0 ++ rest ∧ 2 ≤ g0.length ∧ (∀ c ∈ g0, isBookLetter c = true) ∧
     SepGroupsLang isAuthorSep 1 rest) ∨
  (5 ≤ a.length ∧ ∀ c ∈ a, isBookLetter c = true)

/-- The author matcher accepts exactly `AuthorRegexLang`. -/
lemma validAuthorB_iff (a : List Char) : validAuthorB a = true ↔ AuthorRegexLang a := by
  rw [validAuthorB, Bool.or_eq_true, matchSepLetterGroups_eq_generic]
  rw [AuthorRegexLang]
  constructor
  · rintro (h | h)
    · exact Or.inl ((authorShape_iff _ _ authorSep_not_letter a).mp h)
    · rw [Bool.and_eq_true, decide_eq_true_eq, List.all_eq_true] at h
      exact Or.inr ⟨h.1, fun c hc => h.2 c hc⟩
  · rintro (h | h)
    · exact Or.inl ((authorShape_iff _ _ authorSep_not_letter a).mpr h)
    · refine Or.inr ?_
      rw [Bool.and_eq_true, decide_eq_true_eq, List.all_eq_true]
      exact ⟨h.1, fun c hc => h.2 c hc⟩

/-- Modelled from the claim's words (C7): the claimed author grammar — either a
single run of 5 or more letters with no separators, or two or more letter-groups
of 2+ letters joined by single hyphens or spaces. -/
def ClaimAuthorLang (a : List Char) : Prop :=
  (∃ g0 rest, a = g0 ++ rest ∧ 2 ≤ g0.length ∧ (∀ c ∈ g0, isBookLetter c = true) ∧
     SepGroupsLang (fun c => c = '-' || c = ' ') 2 rest) ∨
  (5 ≤ a.length ∧ ∀ c ∈ a, isBookLetter c = true)

/-- Decidable matcher for `ClaimAuthorLang`, built like the regex matcher. -/
def claimAuthorGrammarB (a : List Char) : Bool :=
  (decide (2 ≤ (a.takeWhile isBookLetter).length) &&
     sepGroupsMatch (fun c => c = '-' || c = ' ') 2 (a.length + 1)
       (a.dropWhile isBookLetter))
  || (decide (5 ≤ a.length) && a.all isBookLetter)

lemma claimAuthorGrammarB_iff (a : List Char) :
    claimAuthorGrammarB a = true ↔ ClaimAuthorLang a := by
  rw [claimAuthorGrammarB, Bool.or_eq_true, ClaimAuthorLang]
  constructor
  · rintro (h | h)
    · exact Or.inl ((authorShape_iff _ _ claimSep_not_letter a).mp h)
    · rw [Bool.and_eq_true, decide_eq_true_eq, List.all_eq_true] at h
      exact Or.inr ⟨h.1, fun c hc => h.2 c hc⟩
  · rintro (h | h)
    · exact Or.inl ((authorShape_iff _ _ claimSep_not_letter a).mpr h)
    · refine Or.inr ?_
      rw [Bool.and_eq_true, decide_eq_true_eq, List.all_eq_true]
      exact ⟨h.1, fun c hc => h.2 c hc⟩

/-- Claim C7, counterexample: the claimed author grammar (5+ letters, or 2+
letter-groups of 2+ letters joined by single hyphens or spaces) is not exact —
the validator accepts `"Ab c"` (second group of one letter) and `"Ab'cd"`
(apostrophe separator), neither of which is in the claimed grammar. -/
theorem author_rule_exactness_counterexample :
    validateAuthor "Ab c".toList = .ok "Ab C".toList ∧ ¬ ClaimAuthorLang "Ab c".toList ∧
    validateAuthor "Ab'cd".toList = .ok "Ab'Cd".toList ∧ ¬ ClaimAuthorLang "Ab'cd".toList := by
  refine ⟨by decide, ?_, by decide, ?_⟩
  · intro h
    exact absurd ((claimAuthorGrammarB_iff _).mpr h) (by decide)
  · intro h
    exact absurd ((claimAuthorGrammarB_iff _).mpr h) (by decide)

/-- Claim C7, amended: the author validator accepts exactly a single run of
5+ letters, or a letter-group of 2+ letters followed by one or more groups of a
single separator (hyphen, space or apostrophe) and 1+ letters; `"Homer"` is
accepted; `"Ben"`, `"John  Doe"` (double space), trailing and consecutive
separators are rejected; on success the value is trimmed and title-cased. -/
theorem author_rule_amended (a : List Char) :
    ((∃ A, validateAuthor a = .ok A) ↔ AuthorRegexLang a) ∧
    (∀ A, validateAuthor a = .ok A → A = pyTitle (pyStrip a)) ∧
    validateAuthor "Homer".toList = .ok "Homer".toList ∧
    validateAuthor "Ben".toList = .error .invalidAuthor ∧
    validateAuthor "John  Doe".toList = .error .invalidAuthor ∧
    validateAuthor "Smith-".toList = .error .invalidAuthor ∧
    validateAuthor "Jean--Pierre".toList = .error .invalidAuthor := by
  refine ⟨?_, ?_, by decide, by decide, by decide, by decide, by decide⟩
  · rw [← validAuthorB_iff]
    constructor
    · rintro ⟨A, hA⟩
      rw [validateAuthor] at hA
      by_cases hv : validAuthorB a = true
      · exact hv
      · rw [if_neg hv] at hA
        cases hA
    · intro hv
      exact ⟨_, by rw [validateAuthor, if_pos hv]⟩
  · intro A hA
    rw [validateAuthor] at hA
    by_cases hv : validAuthorB a = true
    · rw [if_pos hv] at hA
      cases hA
      rfl
    · rw [if_neg hv] at hA
      cases hA

theorem author_rule_amended_witness :
    ("Homer".toList : List Char) = pyTitle (pyStrip "Homer".toList) :=
  (author_rule_amended "Homer".toList).2.1 "Homer".toList (by decide)

/-! ## Normalization is idempotent on validated authors

`_add_book`'s duplicate query re-normalizes the already normalized author
(`search_value.title().strip()` on `new_book.author`); the lemmas below show
this is the identity there. -/

lemma char_toNat_ofNat {n : Nat} (h : n < 0xD800) : (Char.ofNat n).toNat = n := by
  have hv : n.isValidChar := Or.inl h
  simp only [Char.ofNat, hv, dite_true]
  simp [Char.ofNatAux, Char.toNat, UInt32.toNat, BitVec.ofNatLt]

lemma char_eq_of_toNat {c d : Char} (h : c.toNat = d.toNat) : c = d := by
  apply Char.eq_of_val_eq
  exact UInt32.ext h

/-- Code point of `pyToUpper`. -/
lemma pyToUpper_toNat (c : Char) : (pyToUpper c).toNat =
    (if 0x61 ≤ c.toNat ∧ c.toNat ≤ 0x7A then c.toNat - 0x20
     else if 0x430 ≤ c.toNat ∧ c.toNat ≤ 0x44F then c.toNat - 0x20
     else if c.toNat = 0x451 then 0x401
     else c.toNat) := by
  rw [pyToUpper]
  split_ifs with h1 h2 h3
  · exact char_toNat_ofNat (by omega)
  · exact char_toNat_ofNat (by omega)
  · exact char_toNat_ofNat (by omega)
  · rfl

/-- Code point of `pyToLower`. -/
lemma pyToLower_toNat (c : Char) : (pyToLower c).toNat =
    (if 0x41 ≤ c.toNat ∧ c.toNat ≤ 0x5A then c.toNat + 0x20
     else if 0x410 ≤ c.toNat ∧ c.toNat ≤ 0x42F then c.toNat + 0x20
     else if c.toNat = 0x401 then 0x451
     else c.toNat) := by
  rw [pyToLower]
  split_ifs with h1 h2 h3
  · exact char_toNat_ofNat (by omega)
  · exact char_toNat_ofNat (by omega)
  · exact char_toNat_ofNat (by omega)
  · rfl

lemma isBookLetter_pyToUpper (c : Char) : isBookLetter (pyToUpper c) = isBookLetter c := by
  rw [isBookLetter, isBookLetter, decide_eq_decide, pyToUpper_toNat]
  split_ifs <;> omega

lemma isBookLetter_pyToLower (c : Char) : isBookLetter (pyToLower c) = isBookLetter c := by
  rw [isBookLetter, isBookLetter, decide_eq_decide, pyToLower_toNat]
  split_ifs <;> omega

lemma pyToUpper_idem (c : Char) : pyToUpper (pyToUpper c) = pyToUpper c := by
  apply char_eq_of_toNat
  simp only [pyToUpper_toNat]
  split_ifs <;> omega

lemma pyToLower_idem (c : Char) : pyToLower (pyToLower c) = pyToLower c := by
  apply char_eq_of_toNat
  simp only [pyToLower_toNat]
  split_ifs <;> omega

lemma letter_not_pySpace {c : Char} (h : isBookLetter c = true) : isPySpace c = false := by
  rw [isBookLetter, decide_eq_true_eq] at h
  rw [isPySpace, decide_eq_false_iff_not]
  omega

/-- The cased-ness state of `pyTitleAux` after consuming a list. -/
def casedEnd (p : Bool) : List Char → Bool
  | [] => p
  | c :: rest => casedEnd (isBookLetter c) rest

lemma pyTitleAux_append (l₁ : List Char) : ∀ (p : Bool) (l₂ : List Char),
    pyTitleAux p (l₁ ++ l₂) = pyTitleAux p l₁ ++ pyTitleAux (casedEnd p l₁) l₂ := by
  induction l₁ with
  | nil => intro p l₂; rfl
  | cons c rest ih =>
    intro p l₂
    rw [List.cons_append, pyTitleAux, pyTitleAux, ih, casedEnd, List.cons_append]

lemma pyTitleAux_idem (l : List Char) : ∀ p : Bool,
    pyTitleAux p (pyTitleAux p l) = pyTitleAux p l := by
  induction l with
  | nil => intro p; rfl
  | cons c rest ih =>
    intro p
    by_cases hc : isBookLetter c = true
    · cases p
      · simp only [pyTitleAux, hc, if_true, Bool.false_eq_true, if_false,
          isBookLetter_pyToUpper, pyToUpper_idem, ih true]
      · simp only [pyTitleAux, hc, if_true, isBookLetter_pyToLower, pyToLower_idem, ih true]
    · have hc' : isBookLetter c = false := by
        simpa using hc
      simp [pyTitleAux, hc', ih false]

lemma pyTitle_idem (l : List Char) : pyTitle (pyTitle l) = pyTitle l :=
  pyTitleAux_idem l false

/-- The first character written by `pyTitleAux` on a cons. -/
lemma pyTitleAux_cons (p : Bool) (c : Char) (r : List Char) :
    pyTitleAux p (c :: r) =
      (if isBookLetter c then (if p then pyToLower c else pyToUpper c) else c)
        :: pyTitleAux (isBookLetter c) r := rfl

/-- The map `pyTitleAux` sends a final letter to a final letter. -/
lemma pyTitleAux_getLast_letter (p : Bool) {a : List Char} (ha : a ≠ [])
    (hl : isBookLetter (a.getLast ha) = true) :
    ∃ d, (pyTitleAux p a).getLast? = some d ∧ isBookLetter d = true := by
  obtain ⟨init, x, hix⟩ : ∃ init x, a = init ++ [x] :=
    ⟨a.dropLast, a.getLast ha, (List.dropLast_append_getLast ha).symm⟩
  have hx : isBookLetter x = true := by
    subst hix
    rwa [List.getLast_append] at hl
  subst hix
  rw [pyTitleAux_append]
  rw [List.getLast?_append]
  refine ⟨(if isBookLetter x then
      (if casedEnd p init then pyToLower x else pyToUpper x) else x), ?_, ?_⟩
  · rw [pyTitleAux_cons]
    rfl
  · rw [if_pos hx]
    by_cases hce : casedEnd p init = true
    · rw [if_pos hce, isBookLetter_pyToLower]
      exact hx
    · rw [if_neg hce, isBookLetter_pyToUpper]
      exact hx

/-- A string with non-whitespace first and last characters is `strip`-fixed. -/
lemma pyStrip_eq_self {a : List Char} {c d : Char} (h1 : a.head? = some c)
    (hc : isPySpace c = false) (h2 : a.getLast? = some d) (hd : isPySpace d = false) :
    pyStrip a = a := by
  rw [pyStrip]
  have hdw : a.dropWhile isPySpace = a := by
    cases a with
    | nil => rfl
    | cons x r =>
      rw [List.head?_cons, Option.some.injEq] at h1
      rw [List.dropWhile_cons, if_neg]
      rw [h1]
      simp [hc]
  rw [hdw, List.rdropWhile_eq_self_iff]
  intro hl
  have h3 := (List.getLast?_eq_getLast a hl).symm.trans h2
  rw [Option.some.injEq] at h3
  rw [h3]
  simp [hd]

/-- A nonempty separator-group string ends in a letter. -/
lemma sepGroupsLang_getLast_letter {sep : Char → Bool} {minLen : Nat} (hm : 1 ≤ minLen) :
    ∀ {l : List Char}, SepGroupsLang sep minLen l →
      ∃ d, l.getLast? = some d ∧ isBookLetter d = true := by
  suffices h : ∀ gs : List (Char × List Char), gs ≠ [] →
      (∀ p ∈ gs, sep p.1 = true ∧ minLen ≤ p.2.length ∧ ∀ c ∈ p.2, isBookLetter c = true) →
      ∃ d, ((gs.map (fun p => p.1 :: p.2)).flatten).getLast? = some d ∧
        isBookLetter d = true by
    rintro l ⟨gs, hne, hflat, hprops⟩
    subst hflat
    exact h gs hne hprops
  intro gs
  induction gs with
  | nil => intro h; exact absurd rfl h
  | cons p ps ih =>
    intro _ hprops
    obtain ⟨hsep, hlen, hlet⟩ := hprops p (List.mem_cons_self _ _)
    cases ps with
    | nil =>
      have hp2 : p.2 ≠ [] := by
        intro hcon
        rw [hcon] at hlen
        simp only [List.length_nil] at hlen
        omega
      refine ⟨p.2.getLast hp2, ?_, hlet _ (List.getLast_mem hp2)⟩
      simp only [List.map_cons, List.map_nil, List.flatten_cons, List.flatten_nil,
        List.append_nil]
      rw [show p.1 :: p.2 = [p.1] ++ p.2 from rfl, List.getLast?_append,
        List.getLast?_eq_getLast p.2 hp2]
      rfl
    | cons q qs =>
      obtain ⟨d, hd, hdl⟩ := ih (by simp) (fun r hr => hprops r (List.mem_cons_of_mem _ hr))
      refine ⟨d, ?_, hdl⟩
      rw [List.map_cons, List.flatten_cons, List.getLast?_append, hd]
      rfl

/-- A valid author string starts with a letter. -/
lemma validAuthor_head_letter {a : List Char} (h : validAuthorB a = true) :
    ∃ c r, a = c :: r ∧ isBookLetter c = true := by
  cases a with
  | nil => exact absurd h (by decide)
  | cons c r =>
    refine ⟨c, r, rfl, ?_⟩
    rcases (validAuthorB_iff _).mp h with ⟨g0, rest, ha, h2, hg0, _⟩ | ⟨_, hall⟩
    · cases g0 with
      | nil => simp at h2
      | cons d g0' =>
        rw [List.cons_append] at ha
        injection ha with h1 _
        subst h1
        exact hg0 _ (List.mem_cons_self _ _)
    · exact hall c (List.mem_cons_self _ _)

/-- A valid author string ends with a letter. -/
lemma validAuthor_last_letter {a : List Char} (h : validAuthorB a = true) :
    ∃ d, a.getLast? = some d ∧ isBookLetter d = true := by
  rcases (validAuthorB_iff _).mp h with ⟨g0, rest, ha, h2, hg0, hlang⟩ | ⟨h5, hall⟩
  · obtain ⟨d, hd, hdl⟩ := sepGroupsLang_getLast_letter (by omega) hlang
    refine ⟨d, ?_, hdl⟩
    rw [ha, List.getLast?_append, hd]
    rfl
  · have hne : a ≠ [] := by
      intro hcon
      rw [hcon] at h5
      simp at h5
    exact ⟨a.getLast hne, List.getLast?_eq_getLast a hne, hall _ (List.getLast_mem hne)⟩

/-- On a validated author the re-normalization done by `_search_books_by` on
the query value (`title()` then `strip()`) is the identity. -/
lemma validateAuthor_norm_fixed {a A : List Char} (h : validateAuthor a = .ok A) :
    pyStrip (pyTitle A) = A := by
  rw [validateAuthor] at h
  by_cases hv : validAuthorB a = true
  case neg =>
    rw [if_neg hv] at h
    cases h
  rw [if_pos hv] at h
  cases h
  obtain ⟨c, r, hcr, hcl⟩ := validAuthor_head_letter hv
  obtain ⟨d, hd, hdl⟩ := validAuthor_last_letter hv
  have hane : a ≠ [] := by rw [hcr]; simp
  have hstrip : pyStrip a = a := by
    refine pyStrip_eq_self (c := c) (d := d) ?_ (letter_not_pySpace hcl) hd
      (letter_not_pySpace hdl)
    rw [hcr]
    rfl
  rw [hstrip, pyTitle_idem]
  -- it remains to strip-fix the title-cased author
  have hlast : a.getLast hane = d := by
    have h3 := (List.getLast?_eq_getLast a hane).symm.trans hd
    rwa [Option.some.injEq] at h3
  obtain ⟨e, he, hel⟩ := pyTitleAux_getLast_letter false hane (hlast ▸ hdl)
  have hhead : (pyTitle a).head? = some (pyToUpper c) := by
    rw [hcr, pyTitle, pyTitleAux_cons, if_pos hcl]
    rfl
  refine pyStrip_eq_self hhead ?_ he (letter_not_pySpace hel)
  have : isBookLetter (pyToUpper c) = true := by
    rw [isBookLetter_pyToUpper]
    exact hcl
  exact letter_not_pySpace this

/-! ## The duplicate check of `_add_book` -/

/-- Evaluating `_search_books_by("author = v", return_book_obj=True)`: it returns exactly the
records whose stored author equals the re-normalized value. -/
lemma searchBooksBy_author_obj (books : List Record) (value : List Char) :
    searchBooksBy books "author".toList value true =
      .ok (books.filter (fun b => b.author == pyStrip (pyTitle value))) := by
  rw [searchBooksBy]
  simp only
  rw [show pyStrip (pyLower "author".toList) = "author".toList from by decide]
  rw [if_pos (by decide)]
  have hpred : (fun b => recordFieldEq b "author".toList (pyStrip (pyTitle value))) =
      (fun b : Record => b.author == pyStrip (pyTitle value)) := by
    funext b
    rw [recordFieldEq, if_neg (by decide), if_pos rfl]
  rw [hpred]
  by_cases hemp : (books.filter (fun b : Record => b.author == pyStrip (pyTitle value))).isEmpty
  · rw [if_pos hemp, if_pos trivial]
    rw [List.isEmpty_iff] at hemp
    rw [hemp]
  · rw [if_neg hemp]

/-- Claim C4: with all three fields valid, `add` fails with
`AlreadyInTheLibrary` if and only if some existing record has the same
normalized author and the same normalized `(title, year)` as the new record
(the check first restricts to records with exactly matching author, then
compares title and year); otherwise it appends the new normalized record. -/
theorem add_duplicate_iff
    (today : Int) (books : List Record) (t a y : List Char) (T A : List Char) (Y : Int)
    (ht : validateTitle t = .ok T) (ha : validateAuthor a = .ok A)
    (hy : validateYear today y = .ok Y) :
    (addBook today books t a y = .error .alreadyInTheLibrary ↔
       ∃ b ∈ books, b.author = A ∧ b.title = T ∧ b.year = Y) ∧
    (addBook today books t a y =
        .ok (books ++ [⟨lastBookId books + 1, T, A, Y, availableStatus⟩]) ↔
       ¬ ∃ b ∈ books, b.author = A ∧ b.title = T ∧ b.year = Y) := by
  have hmk : mkBook today (lastBookId books) t a y =
      .ok ⟨lastBookId books + 1, T, A, Y, availableStatus⟩ := by
    rw [mkBook, ht, ha, hy]
  have hsearch : searchBooksBy books "author".toList A true =
      .ok (books.filter (fun b => b.author == A)) := by
    rw [searchBooksBy_author_obj, validateAuthor_norm_fixed ha]
  rw [addBook, hmk]
  simp only
  rw [hsearch]
  simp only
  have hiff : ((books.filter (fun b => b.author == A)).any
      (fun b => b.title == T && b.year == Y) = true) ↔
      ∃ b ∈ books, b.author = A ∧ b.title = T ∧ b.year = Y := by
    rw [List.any_eq_true]
    constructor
    · rintro ⟨x, hx, hxp⟩
      rw [List.mem_filter] at hx
      simp only [Bool.and_eq_true, beq_iff_eq] at hxp hx
      exact ⟨x, hx.1, hx.2, hxp.1, hxp.2⟩
    · rintro ⟨b, hb, h1, h2, h3⟩
      refine ⟨b, ?_, ?_⟩
      · rw [List.mem_filter]
        exact ⟨hb, by simp [h1]⟩
      · simp [h2, h3]
  constructor
  · by_cases hdup : (books.filter (fun b => b.author == A)).any
        (fun b => b.title == T && b.year == Y) = true
    · rw [if_pos hdup]
      exact iff_of_true rfl (hiff.mp hdup)
    · rw [if_neg hdup]
      exact iff_of_false (by simp) (fun hex => hdup (hiff.mpr hex))
  · by_cases hdup : (books.filter (fun b => b.author == A)).any
        (fun b => b.title == T && b.year == Y) = true
    · rw [if_pos hdup]
      exact iff_of_false (by simp) (fun hno => hno (hiff.mp hdup))
    · rw [if_neg hdup]
      exact iff_of_true rfl (fun hex => hdup (hiff.mpr hex))

theorem add_duplicate_iff_witness :
    addBook 2026 [book1984] "1984".toList "Homer".toList "1984".toList =
      .error .alreadyInTheLibrary ∧
    addBook 2026 [book1984] "1984".toList "Homer".toList "1985".toList =
      .ok [book1984, ⟨2, "1984".toList, "Homer".toList, 1985, availableStatus⟩] := by
  constructor
  · exact (add_duplicate_iff 2026 [book1984] "1984".toList "Homer".toList "1984".toList
      "1984".toList "Homer".toList 1984 (by decide) (by decide) (by decide)).1.mpr
      (by decide)
  · have h := (add_duplicate_iff 2026 [book1984] "1984".toList "Homer".toList "1985".toList
      "1984".toList "Homer".toList 1985 (by decide) (by decide) (by decide)).2.mpr
      (by decide)
    exact h.trans (by decide)
